import Mathlib

/-!
Verification of the git4go object-database layer (odb.go, odb_loose.go)
against its specification, via a shallow embedding: byte sequences are
`List Nat`, file-system names are `List Char`, and every Go function in
scope is translated to an executable Lean definition.  An operation in Go
can return a value, return an error, or panic at runtime; the outcome type
`ROut` makes all three explicit.
-/

namespace Git4go

/-- Outcome of a Go operation: a normal value, a returned `error`, or a
runtime panic. -/
inductive ROut (α : Type) where
  | ok (a : α)
  | err (e : String)
  | panic (msg : String)
  deriving DecidableEq, Repr

/-- Modelled from the spec: the `ObjectType` constants are defined outside
`src/`.  The spec (§3) gives the closed enumeration; the numeric codes are
the libgit2-compatible ones that the binary header encodes in bits 4-6 of
its first byte.  `Bad` is the sentinel for an unknown or unparseable type. -/
def ObjectBad : Int := -1

def ObjectCommit : Int := 1

def ObjectTree : Int := 2

def ObjectBlob : Int := 3

def ObjectTag : Int := 4

/-- ASCII bytes of the type token "commit". -/
def commitToken : List Nat := [99, 111, 109, 109, 105, 116]

/-- ASCII bytes of the type token "tree". -/
def treeToken : List Nat := [116, 114, 101, 101]

/-- ASCII bytes of the type token "blob". -/
def blobToken : List Nat := [98, 108, 111, 98]

/-- ASCII bytes of the type token "tag". -/
def tagToken : List Nat := [116, 97, 103]

/-- Modelled from the spec: `TypeString2Type` is defined outside `src/`.
Per §3 it converts a lowercase name token to the object type and yields the
`Bad` sentinel on anything else. -/
def TypeString2Type (token : List Nat) : Int :=
  if token = commitToken then ObjectCommit
  else if token = treeToken then ObjectTree
  else if token = blobToken then ObjectBlob
  else if token = tagToken then ObjectTag
  else ObjectBad

/-- Modelled from the spec: `ObjectType.String()` is defined outside `src/`;
per §3 it is the inverse direction of the name-token table. -/
def typeToken (t : Int) : List Nat :=
  if t = ObjectCommit then commitToken
  else if t = ObjectTree then treeToken
  else if t = ObjectBlob then blobToken
  else if t = ObjectTag then tagToken
  else []

/-- The four storable types of §3 (`Bad` and the delta placeholders are
never written to a loose header). -/
def validObjectType (t : Int) : Prop :=
  t = ObjectCommit ∨ t = ObjectTree ∨ t = ObjectBlob ∨ t = ObjectTag

instance : DecidablePred validObjectType := by
  intro t
  unfold validObjectType
  infer_instance

/-- The byte-scanning loops of `parseObjectHeader`: index of the first
occurrence of `target` in `l`, if any.  Each Go loop walks `offset` upward
and breaks at the first hit; this structural version returns that first
index relative to where the scan started. -/
def findByte (l : List Nat) (target : Nat) : Option Nat :=
  match l with
  | [] => none
  | b :: rest =>
    if b = target then some 0
    else (findByte rest target).map (· + 1)

/-- `true` exactly on an ASCII decimal digit byte. -/
def decDigit (b : Nat) : Bool := 48 ≤ b && b ≤ 57

/-- Numeric value of a big-endian ASCII digit string. -/
def decValue (bs : List Nat) : Nat := bs.foldl (fun acc b => acc * 10 + (b - 48)) 0

/-- Models Go `strconv.ParseUint(s, 10, 64)` (standard library, per its
documented semantics): succeeds exactly on a nonempty all-digit string whose
value fits in 64 bits. -/
def parseUint64 (bs : List Nat) : Option Nat :=
  if bs ≠ [] ∧ bs.all decDigit ∧ decValue bs < 2 ^ 64 then some (decValue bs) else none

/-- Shallow embedding of `parseObjectHeader` (src/odb_loose.go).  The first
loop scans for the first space byte and converts the token before it with
`TypeString2Type` (leaving the initial `ObjectBad` and offset `len(data)` if
no space exists); the second loop scans onward for the first NUL byte and
parses the bytes between as an ASCII decimal size, propagating the
`ParseUint` error; on success the returned offset points just past the
byte that ended the scan. -/
def parseObjectHeader (data : List Nat) : ROut (Int × Nat × Nat) :=
  match findByte data 32 with
  | none => ROut.ok (ObjectBad, 0, data.length)
  | some i =>
    let resultType := TypeString2Type (data.take i)
    match (findByte (data.drop (i + 1)) 0).map (· + (i + 1)) with
    | none => ROut.ok (resultType, 0, data.length)
    | some j =>
      match parseUint64 ((data.drop (i + 1)).take (j - (i + 1))) with
      | none => ROut.err "strconv.ParseUint: parsing size failed"
      | some size => ROut.ok (resultType, size, j + 1)

/-- The `for (c & 0x80) != 0` loop of `parseBinaryObjectHeader`
(src/odb_loose.go).  In the source, `c` is the first byte of the input and
is never reassigned inside the loop, so once entered the loop can only
leave through its length check (`len(data) <= offset`, a returned error) or
through the index access `data[offset]`, which the source performs after
`offset++` and therefore one past the position the length check guarded (a
runtime panic once `offset` reaches `len(data)`).  Here `rest` stands for
`data[offset:]`: an empty `rest` is the length-check error, a singleton
`rest` is the out-of-range access, and otherwise the byte `data[offset+1]`
(the second element of `rest`) is folded into `size` and the loop repeats
at `offset+1`. -/
def parseBinaryLoop (rest : List Nat) (size shift : Nat) : ROut (Int × Nat × Nat) :=
  match rest with
  | [] => ROut.err "parseBinaryObjectHeader: input is too short"
  | [_] => ROut.panic "runtime error: index out of range"
  | _ :: b :: rest2 =>
    parseBinaryLoop (b :: rest2) (size + (b &&& 127) <<< shift) (shift + 7)

/-- Shallow embedding of `parseBinaryObjectHeader` (src/odb_loose.go): the
first byte gives the type (bits 4-6) and the low 4 bits of the size; if its
top bit is set the continuation loop `parseBinaryLoop` runs, starting at
offset 1. -/
def parseBinaryObjectHeader (data : List Nat) : ROut (Int × Nat × Nat) :=
  match data with
  | [] => ROut.err "parseBinaryObjectHeader: input is empty"
  | c :: rest =>
    let resultType : Int := Int.ofNat ((c >>> 4) &&& 7)
    let size := c &&& 15
    if c &&& 128 ≠ 0 then parseBinaryLoop rest size 4
    else ROut.ok (resultType, size, 1)

example : parseBinaryObjectHeader [53] = ROut.ok (3, 5, 1) := by decide

example : parseBinaryObjectHeader [144, 1] = ROut.panic "runtime error: index out of range" := by
  decide

example : parseObjectHeader [98, 108, 111, 98, 32, 53, 0, 1, 2] = ROut.ok (ObjectBlob, 5, 7) := by
  decide

example : parseObjectHeader [120, 121, 122, 32, 53, 0] = ROut.ok (ObjectBad, 5, 6) := by decide

example : parseObjectHeader [98, 108, 111, 98, 32, 120, 0] =
    ROut.err "strconv.ParseUint: parsing size failed" := by decide

theorem findByte_eq_some_iff (l : List Nat) (t : Nat) :
    ∀ i, findByte l t = some i ↔ l[i]? = some t ∧ ∀ k, k < i → l[k]? ≠ some t := by
  induction l with
  | nil => intro i; simp [findByte]
  | cons b rest ih =>
    intro i
    by_cases hb : b = t
    · simp only [findByte, if_pos hb]
      cases i with
      | zero =>
        constructor
        · intro _
          exact ⟨by simp [hb], by intro k hk; omega⟩
        · intro _
          rfl
      | succ n =>
        constructor
        · intro h
          simp at h
        · rintro ⟨_, h2⟩
          exact absurd (show (b :: rest)[0]? = some t by simp [hb]) (h2 0 (by omega))
    · simp only [findByte, if_neg hb]
      cases i with
      | zero =>
        constructor
        · intro h
          obtain ⟨a, _, hae⟩ := Option.map_eq_some'.mp h
          omega
        · rintro ⟨h1, _⟩
          have : b = t := by simpa using h1
          exact absurd this hb
      | succ n =>
        constructor
        · intro h
          obtain ⟨a, ha, hae⟩ := Option.map_eq_some'.mp h
          have han : a = n := by omega
          subst han
          obtain ⟨h1, h2⟩ := (ih a).mp ha
          refine ⟨by simpa using h1, ?_⟩
          intro k hk
          cases k with
          | zero =>
            simp only [List.getElem?_cons_zero]
            intro hc
            exact hb (Option.some.inj hc)
          | succ m =>
            have := h2 m (by omega)
            simpa using this
        · rintro ⟨h1, h2⟩
          have h1' : rest[n]? = some t := by simpa using h1
          have h2' : ∀ k, k < n → rest[k]? ≠ some t := by
            intro k hk
            have := h2 (k + 1) (by omega)
            simpa using this
          have hfind := (ih n).mpr ⟨h1', h2'⟩
          rw [hfind]
          rfl

theorem findByte_eq_none_iff (l : List Nat) (t : Nat) :
    findByte l t = none ↔ ∀ k : Nat, l[k]? ≠ some t := by
  induction l with
  | nil => simp [findByte]
  | cons b rest ih =>
    by_cases hb : b = t
    · simp only [findByte, if_pos hb]
      constructor
      · intro h
        simp at h
      · intro h
        exact absurd (show (b :: rest)[0]? = some t by simp [hb]) (h 0)
    · simp only [findByte, if_neg hb, Option.map_eq_none']
      rw [ih]
      constructor
      · intro h k
        cases k with
        | zero =>
          simp only [List.getElem?_cons_zero]
          intro hc
          exact hb (Option.some.inj hc)
        | succ m =>
          have := h m
          simpa using this
      · intro h k
        have := h (k + 1)
        simpa using this

/-- Two indices that are each the first occurrence of the same byte value
are equal. -/
theorem first_occurrence_unique {l : List Nat} {t : Nat} {i i' : Nat}
    (h1 : l[i]? = some t) (h2 : ∀ k, k < i → l[k]? ≠ some t)
    (h3 : l[i']? = some t) (h4 : ∀ k, k < i' → l[k]? ≠ some t) : i = i' := by
  rcases Nat.lt_trichotomy i i' with h | h | h
  · exact absurd h1 (h4 i h)
  · exact h
  · exact absurd h3 (h2 i' h)

/-- C1: the compact binary header decoder.  The claim describes the correct
varint decoding: on `[0x90, 0x01]` (type bits `001`, size low nibble `0`,
continuation bit set, next byte `0x01` with top bit clear) it should return
type 1, size `0 + (1 <<< 4) = 16`, and offset 2.  The code instead never
re-reads the continuation flag (`c` is not reassigned in the loop) and
indexes one byte past its bounds check, so it panics with an index out of
range. -/
theorem C1_binary_varint_header_panics :
    parseBinaryObjectHeader [144, 1] = ROut.panic "runtime error: index out of range" := by
  decide

/-- C3 counterexample: on the decompressed stream `"xyz 5\x00"` the token
before the first space is not a known type name, yet `parseObjectHeader`
returns a successful result (no error) carrying the `Bad` sentinel type —
contradicting the claim that an unknown type token is a `Corrupt` error. -/
theorem C3_unknown_type_token_succeeds :
    parseObjectHeader [120, 121, 122, 32, 53, 0] = ROut.ok (ObjectBad, 5, 6) ∧
    ¬ validObjectType ObjectBad := by
  constructor
  · decide
  · decide

/-- C3 amended: `parseObjectHeader` fails if and only if the stream has a
first space at some index `i`, a first NUL strictly after it at some index
`j`, and the bytes strictly between them do not parse as a 64-bit decimal
size.  In particular an unknown type token alone never causes an error. -/
theorem C3_parse_error_iff_unparseable_size (data : List Nat) :
    (∃ e, parseObjectHeader data = ROut.err e) ↔
    (∃ i j, i < j ∧ j < data.length ∧
      data[i]? = some 32 ∧ (∀ k, k < i → data[k]? ≠ some 32) ∧
      data[j]? = some 0 ∧ (∀ k, i < k → k < j → data[k]? ≠ some 0) ∧
      parseUint64 ((data.drop (i + 1)).take (j - (i + 1))) = none) := by
  unfold parseObjectHeader
  cases hsp : findByte data 32 with
  | none =>
    rw [findByte_eq_none_iff] at hsp
    simp only []
    constructor
    · rintro ⟨e, h⟩
      cases h
    · rintro ⟨i, j, _, _, hi, _⟩
      exact absurd hi (hsp i)
  | some i =>
    rw [findByte_eq_some_iff] at hsp
    obtain ⟨hi1, hi2⟩ := hsp
    simp only []
    cases hnl : findByte (data.drop (i + 1)) 0 with
    | none =>
      rw [findByte_eq_none_iff] at hnl
      simp only [Option.map_none']
      constructor
      · rintro ⟨e, h⟩
        cases h
      · rintro ⟨i', j', hij, hjlen, hi1', hi2', hj1', hj2', hparse⟩
        have hii : i = i' := first_occurrence_unique hi1 hi2 hi1' hi2'
        subst hii
        have := hnl (j' - (i + 1))
        rw [List.getElem?_drop] at this
        have hj : i + 1 + (j' - (i + 1)) = j' := by omega
        rw [hj] at this
        exact absurd hj1' this
    | some j0 =>
      rw [findByte_eq_some_iff] at hnl
      obtain ⟨hj1, hj2⟩ := hnl
      rw [List.getElem?_drop] at hj1
      simp only [Option.map_some']
      cases hpu : parseUint64 ((data.drop (i + 1)).take (j0 + (i + 1) - (i + 1))) with
      | none =>
        constructor
        · intro _
          refine ⟨i, i + 1 + j0, by omega, ?_, hi1, hi2, hj1, ?_, ?_⟩
          · exact (List.getElem?_eq_some.mp hj1).1
          · intro k hk1 hk2
            have := hj2 (k - (i + 1)) (by omega)
            rw [List.getElem?_drop] at this
            have hke : i + 1 + (k - (i + 1)) = k := by omega
            rwa [hke] at this
          · have : i + 1 + j0 - (i + 1) = j0 + (i + 1) - (i + 1) := by omega
            rw [this]
            exact hpu
        · intro _
          exact ⟨"strconv.ParseUint: parsing size failed", rfl⟩
      | some v =>
        simp only []
        constructor
        · rintro ⟨e, h⟩
          cases h
        · rintro ⟨i', j', hij, hjlen, hi1', hi2', hj1', hj2', hparse⟩
          have hii : i = i' := first_occurrence_unique hi1 hi2 hi1' hi2'
          subst hii
          have hj1'' : data[i + 1 + (j' - (i + 1))]? = some 0 := by
            have hje : i + 1 + (j' - (i + 1)) = j' := by omega
            rw [hje]
            exact hj1'
          have hjj : j0 = j' - (i + 1) := by
            apply first_occurrence_unique (l := data.drop (i + 1)) (t := 0)
            · rw [List.getElem?_drop]; exact hj1
            · exact hj2
            · rw [List.getElem?_drop]; exact hj1''
            · intro k hk
              rw [List.getElem?_drop]
              exact hj2' (i + 1 + k) (by omega) (by omega)
          have hje : i + 1 + j0 = j' := by omega
          have : j0 + (i + 1) - (i + 1) = j' - (i + 1) := by omega
          rw [this] at hpu
          rw [hpu] at hparse
          cases hparse

/-!
## The backend-chain dispatcher and the alternates loader (src/odb.go)

A backend, as the `Odb` registration logic sees it: the directory it was
opened on, the physical identity of that directory, its priority and the
`asAlternates` flag.  Directory identity models `os.FileInfo` as compared
by `SameDirectory` (spec §3: filesystem-identity comparison, not string
equality): two paths have the same physical directory exactly when they
are mapped to the same identity number.
-/

structure AltBackend where
  dir : List Char
  dirId : Nat
  priority : Nat
  isAlternate : Bool
  deriving DecidableEq, Repr

/-- Modelled from the spec: the `Less` of the `OdbBackends` sort interface
is outside `src/`; per spec §4.4 backends are ordered by priority. -/
def byPriority (a b : AltBackend) : Prop := a.priority ≤ b.priority

instance : DecidableRel byPriority := fun a b => Nat.decLe a.priority b.priority

instance : IsTotal AltBackend byPriority := ⟨fun a b => Nat.le_total a.priority b.priority⟩

instance : IsTrans AltBackend byPriority := ⟨fun _ _ _ hab hbc => Nat.le_trans hab hbc⟩

/-- Shallow embedding of `Odb.addBackendInternal` (src/odb.go): append the
new backend and re-sort the whole list by priority.  Go's `sort.Sort`
guarantees only a sorted permutation (it is documented as not stable); the
executable model picks one admissible outcome (an insertion sort), and
`sortSortAdmissible` below captures exactly the contract `sort.Sort`
gives. -/
def addBackendInternal (backends : List AltBackend) (b : AltBackend) : List AltBackend :=
  List.insertionSort byPriority (backends ++ [b])

/-- Everything Go's (unstable) `sort.Sort` promises about its output for
the compare-by-priority `Less`: a permutation of the input, sorted by
priority.  Nothing constrains the relative order of equal priorities. -/
def sortSortAdmissible (input output : List AltBackend) : Prop :=
  output.Perm input ∧ output.Sorted byPriority

/-- The file system as seen by `AddDefaultBackends` and `loadAlternates`:
`statId dir` is `os.Stat` (`none` = failure, `some id` = the physical
identity used by `SameDirectory`), and `altLines dir` is the line list of
`<dir>/info/alternates` (`none` = the file does not exist; per the source
an existing-but-unopenable file only aborts that one `loadAlternates`
call, whose error the caller discards, so it is not modelled
separately). -/
structure AltFS where
  statId : List Char → Option Nat
  altLines : List Char → Option (List (List Char))

/-- Models `filepath.Join(a, b)`.  `filepath.Join` additionally cleans the
result lexically; the cleaning is immaterial here because directory
identity is resolved through `AltFS.statId`, which is keyed on the joined
path. -/
def joinPath (a b : List Char) : List Char := a ++ ['/'] ++ b

/-- The line loop of `Odb.loadAlternates` (src/odb.go).  Empty lines and
`#` lines are skipped; a line starting with `.` is followed — via the
recursive `AddDefaultBackends` call passed in as `step` — only when
`alternateDepth > 0`; any other line (an absolute path) is skipped.  A
`step` error stops the remaining lines of this file but keeps the backend
list accumulated so far (the Go `Odb` is mutated in place, and
`AddDefaultBackends` discards `loadAlternates`' returned error). -/
def processAlternateLines (step : List AltBackend → List Char → List AltBackend × Option String)
    (dir : List Char) (depth : Nat) :
    List (List Char) → List AltBackend → List AltBackend
  | [], backends => backends
  | line :: rest, backends =>
    if line = [] ∨ line.head? = some '#' then
      processAlternateLines step dir depth rest backends
    else if line.head? = some '.' ∧ depth > 0 then
      match step backends (joinPath dir line) with
      | (b2, some _) => b2
      | (b2, none) => processAlternateLines step dir depth rest b2
    else
      processAlternateLines step dir depth rest backends

/-- The body of `Odb.loadAlternates` (src/odb.go): a no-op once the depth
exceeds `GIT_ALTERNATES_MAX_DEPTH = 5` or when `info/alternates` is
absent; otherwise processes the lines. -/
def loadAlternatesStep (fs : AltFS)
    (step : List AltBackend → List Char → List AltBackend × Option String)
    (backends : List AltBackend) (dir : List Char) (depth : Nat) : List AltBackend :=
  if depth > 5 then backends
  else
    match fs.altLines dir with
    | none => backends
    | some lines => processAlternateLines step dir depth lines backends

/-- Shallow embedding of `Odb.AddDefaultBackends` (src/odb.go).  Stat the
directory (failure is the only error this function itself returns);
skip registration when an existing backend has the same physical
directory; otherwise register a loose backend at priority
`GIT_LOOSE_PRIORITY = 1` and run the alternates loader, whose own error
is discarded.  `fuel` bounds the recursion for the embedding only: the
source recursion is bounded by the `depth > 5` guard, so any
`fuel > 6 - depth` never reaches the base case. -/
def addDefaultBackends (fs : AltFS) :
    Nat → List AltBackend → List Char → Bool → Nat → List AltBackend × Option String
  | 0, backends, _, _, _ => (backends, none)
  | fuel + 1, backends, dir, asAlt, depth =>
    match fs.statId dir with
    | none => (backends, some "Failed to load object database")
    | some id =>
      if backends.any (fun b => b.dirId == id) then (backends, none)
      else
        let b2 := addBackendInternal backends ⟨dir, id, 1, asAlt⟩
        (loadAlternatesStep fs
          (fun bs d => addDefaultBackends fs fuel bs d true (depth + 1)) b2 dir depth, none)

/-- Concrete store for C2: an object directory `r` whose `info/alternates`
holds the single relative line `./a`; the joined path `r/./a` exists and
has its own physical identity and no alternates file of its own. -/
def fsC2 : AltFS where
  statId d :=
    if d = ['r'] then some 0
    else if d = ['r', '/', '.', '/', 'a'] then some 1
    else none
  altLines d :=
    if d = ['r'] then some [['.', '/', 'a']] else none

/-- C2: loading alternates from the root object directory (depth 0, as
`OdbOpen` does) never follows a relative alternates line, because the
source guards the recursive call with `alternateDepth > 0`: only the root
backend is registered, so an object stored behind even a single alternates
link is unreachable from the root `Odb`.  The second conjunct shows the
same store processed at depth 1, where the guard passes and the alternate
is registered — the root depth is precisely what the code excludes. -/
theorem C2_root_alternates_never_followed :
    addDefaultBackends fsC2 10 [] ['r'] false 0 = ([AltBackend.mk ['r'] 0 1 false], none) ∧
    addDefaultBackends fsC2 10 [] ['r'] false 1 =
      ([AltBackend.mk ['r'] 0 1 false, AltBackend.mk ['r', '/', '.', '/', 'a'] 1 1 true], none) := by
  constructor
  · decide
  · decide

/-- C8 counterexample: two backends that tie at priority 1 (as every loose
backend does).  The output that reverses their insertion order satisfies
everything `sort.Sort` guarantees for the compare-by-priority `Less` — it
is a sorted permutation — so `addBackendInternal`, which uses the
documented-as-unstable `sort.Sort` rather than `sort.Stable`, does not
re-establish the claimed insertion-order tie-break. -/
theorem C8_sort_contract_allows_tie_swap :
    sortSortAdmissible ([AltBackend.mk ['a'] 0 1 false] ++ [AltBackend.mk ['b'] 1 1 false])
      [AltBackend.mk ['b'] 1 1 false, AltBackend.mk ['a'] 0 1 false] ∧
    [AltBackend.mk ['b'] 1 1 false, AltBackend.mk ['a'] 0 1 false] ≠
      [AltBackend.mk ['a'] 0 1 false] ++ [AltBackend.mk ['b'] 1 1 false] := by
  refine ⟨⟨?_, ?_⟩, ?_⟩
  · exact List.Perm.swap _ _ _
  · decide
  · decide

/-- C8 amended: every `addBackendInternal` call leaves the backend list a
permutation of the previous list plus the appended backend, sorted
ascending by priority (and hence within the `sort.Sort` contract); the
relative order of equal-priority backends is not guaranteed. -/
theorem C8_add_backend_sorted_perm (l : List AltBackend) (b : AltBackend) :
    (addBackendInternal l b).Perm (l ++ [b]) ∧
    (addBackendInternal l b).Sorted byPriority ∧
    sortSortAdmissible (l ++ [b]) (addBackendInternal l b) := by
  refine ⟨List.perm_insertionSort byPriority (l ++ [b]),
    List.sorted_insertionSort byPriority (l ++ [b]),
    List.perm_insertionSort byPriority (l ++ [b]),
    List.sorted_insertionSort byPriority (l ++ [b])⟩

/-- Decoded result of a read (src `OdbObject`): object type code and raw
payload bytes; the implicit size is the payload length (spec §3). -/
structure OdbObject where
  type : Int
  data : List Nat
  deriving DecidableEq, Repr

/-- A backend as the dispatcher consumes it (the `OdbBackend` interface):
its priority plus one function per operation the `Odb` fans out.  Oids are
carried in their 40-character hex form. -/
structure BackendOps where
  priority : Nat
  readFn : List Char → Except String OdbObject
  readHeaderFn : List Char → Except String (Int × Nat)
  readPrefixFn : List Char → Nat → Except String (List Char × OdbObject)
  existsFn : List Char → Bool

/-- The dispatch loop shared verbatim by `Odb.Read`, `Odb.ReadHeader` and
`Odb.ReadPrefix` (src/odb.go): try each backend in list order, return the
first success, discard each individual failure, and fall through to the
operation's own not-found error once every backend has failed. -/
def firstOk {α : Type} (backends : List BackendOps) (call : BackendOps → Except String α)
    (failMsg : String) : Except String α :=
  match backends with
  | [] => Except.error failMsg
  | b :: rest =>
    match call b with
    | Except.ok v => Except.ok v
    | Except.error _ => firstOk rest call failMsg

/-- Shallow embedding of `Odb.Read` (src/odb.go). -/
def odbRead (backends : List BackendOps) (oid : List Char) : Except String OdbObject :=
  firstOk backends (fun b => b.readFn oid) "Odb.Read: no match for id"

/-- Shallow embedding of `Odb.ReadHeader` (src/odb.go). -/
def odbReadHeader (backends : List BackendOps) (oid : List Char) : Except String (Int × Nat) :=
  firstOk backends (fun b => b.readHeaderFn oid) "Odb.ReadHeader: no match for id"

/-- Shallow embedding of `Odb.ReadPrefix` (src/odb.go). -/
def odbReadPrefixFn (backends : List BackendOps) (oid : List Char) (len : Nat) :
    Except String (List Char × OdbObject) :=
  firstOk backends (fun b => b.readPrefixFn oid len) "Odb.ReadPrefix: no match for id"

/-- Shallow embedding of `Odb.Exists` (src/odb.go): true as soon as some
backend reports the object present. -/
def odbExists (backends : List BackendOps) (oid : List Char) : Bool :=
  backends.any (fun b => b.existsFn oid)

theorem firstOk_err_iff {α : Type} (backends : List BackendOps)
    (call : BackendOps → Except String α) (failMsg : String) :
    (∃ e, firstOk backends call failMsg = Except.error e) ↔
      ∀ b ∈ backends, ∃ e, call b = Except.error e := by
  induction backends with
  | nil =>
    simp only [firstOk, List.not_mem_nil]
    exact ⟨fun _ b h => absurd h (by simp), fun _ => ⟨failMsg, rfl⟩⟩
  | cons b rest ih =>
    simp only [firstOk]
    cases hc : call b with
    | ok v =>
      constructor
      · rintro ⟨e, h⟩
        cases h
      · intro h
        obtain ⟨e, he⟩ := h b (by simp)
        rw [hc] at he
        cases he
    | error e0 =>
      rw [ih]
      constructor
      · intro h x hx
        rcases List.mem_cons.mp hx with hx | hx
        · subst hx
          exact ⟨e0, hc⟩
        · exact h x hx
      · intro h x hx
        exact h x (List.mem_cons_of_mem b hx)

theorem firstOk_all_fail {α : Type} (backends : List BackendOps)
    (call : BackendOps → Except String α) (failMsg : String)
    (h : ∀ b ∈ backends, ∃ e, call b = Except.error e) :
    firstOk backends call failMsg = Except.error failMsg := by
  induction backends with
  | nil => rfl
  | cons b rest ih =>
    simp only [firstOk]
    obtain ⟨e, he⟩ := h b (by simp)
    rw [he]
    exact ih (fun x hx => h x (List.mem_cons_of_mem b hx))

theorem firstOk_first_success {α : Type} (call : BackendOps → Except String α)
    (failMsg : String) (pre : List BackendOps) (b : BackendOps) (post : List BackendOps)
    (v : α) (hpre : ∀ x ∈ pre, ∃ e, call x = Except.error e) (hb : call b = Except.ok v) :
    firstOk (pre ++ b :: post) call failMsg = Except.ok v := by
  induction pre with
  | nil =>
    simp only [List.nil_append, firstOk]
    rw [hb]
  | cons x rest ih =>
    simp only [List.cons_append, firstOk]
    obtain ⟨e, he⟩ := hpre x (by simp)
    rw [he]
    exact ih (fun y hy => hpre y (List.mem_cons_of_mem x hy))

/-- C5: over every non-empty, priority-sorted backend list, each of the
three multi-object read dispatchers returns the result of the first
backend that succeeds (discarding the failures before it), surfaces its
not-found error exactly when every backend has failed, and `Exists` is
true exactly when some backend reports the object present. -/
theorem C5_dispatch_first_success (backends : List BackendOps) (oid : List Char) (len : Nat)
    (hne : backends ≠ [])
    (hsorted : backends.Sorted (fun a b => a.priority ≤ b.priority)) :
    ((∃ e, odbRead backends oid = Except.error e) ↔
      ∀ b ∈ backends, ∃ e, b.readFn oid = Except.error e) ∧
    ((∀ b ∈ backends, ∃ e, b.readFn oid = Except.error e) →
      odbRead backends oid = Except.error "Odb.Read: no match for id") ∧
    (∀ pre b post v, backends = pre ++ b :: post →
      (∀ x ∈ pre, ∃ e, x.readFn oid = Except.error e) → b.readFn oid = Except.ok v →
      odbRead backends oid = Except.ok v) ∧
    ((∃ e, odbReadHeader backends oid = Except.error e) ↔
      ∀ b ∈ backends, ∃ e, b.readHeaderFn oid = Except.error e) ∧
    ((∀ b ∈ backends, ∃ e, b.readHeaderFn oid = Except.error e) →
      odbReadHeader backends oid = Except.error "Odb.ReadHeader: no match for id") ∧
    (∀ pre b post v, backends = pre ++ b :: post →
      (∀ x ∈ pre, ∃ e, x.readHeaderFn oid = Except.error e) → b.readHeaderFn oid = Except.ok v →
      odbReadHeader backends oid = Except.ok v) ∧
    ((∃ e, odbReadPrefixFn backends oid len = Except.error e) ↔
      ∀ b ∈ backends, ∃ e, b.readPrefixFn oid len = Except.error e) ∧
    ((∀ b ∈ backends, ∃ e, b.readPrefixFn oid len = Except.error e) →
      odbReadPrefixFn backends oid len = Except.error "Odb.ReadPrefix: no match for id") ∧
    (∀ pre b post v, backends = pre ++ b :: post →
      (∀ x ∈ pre, ∃ e, x.readPrefixFn oid len = Except.error e) →
      b.readPrefixFn oid len = Except.ok v →
      odbReadPrefixFn backends oid len = Except.ok v) ∧
    (odbExists backends oid = true ↔ ∃ b ∈ backends, b.existsFn oid = true) := by
  refine ⟨firstOk_err_iff backends _ _,
    firstOk_all_fail backends _ _,
    ?_,
    firstOk_err_iff backends _ _,
    firstOk_all_fail backends _ _,
    ?_,
    firstOk_err_iff backends _ _,
    firstOk_all_fail backends _ _,
    ?_,
    ?_⟩
  · intro pre b post v hdecomp hpre hb
    rw [odbRead, hdecomp]
    exact firstOk_first_success _ _ pre b post v hpre hb
  · intro pre b post v hdecomp hpre hb
    rw [odbReadHeader, hdecomp]
    exact firstOk_first_success _ _ pre b post v hpre hb
  · intro pre b post v hdecomp hpre hb
    rw [odbReadPrefixFn, hdecomp]
    exact firstOk_first_success _ _ pre b post v hpre hb
  · simp [odbExists, List.any_eq_true]

/-- A backend that fails every read and reports nothing present. -/
def emptyBackend : BackendOps where
  priority := 1
  readFn _ := Except.error "missing"
  readHeaderFn _ := Except.error "missing"
  readPrefixFn _ _ := Except.error "missing"
  existsFn _ := false

/-- A backend that answers every read with the fixed blob `[104, 105]`. -/
def hiBackend : BackendOps where
  priority := 1
  readFn _ := Except.ok ⟨ObjectBlob, [104, 105]⟩
  readHeaderFn _ := Except.ok (ObjectBlob, 2)
  readPrefixFn _ _ := Except.error "missing"
  existsFn _ := true

/-- Witness for C5 at the concrete two-backend chain `[emptyBackend,
hiBackend]`: the first backend fails, so `Odb.Read` returns the second
backend's object, and `Exists` is true. -/
theorem C5_dispatch_first_success_witness :
    odbRead [emptyBackend, hiBackend] ['a'] = Except.ok ⟨ObjectBlob, [104, 105]⟩ ∧
    odbExists [emptyBackend, hiBackend] ['a'] = true := by
  have h := C5_dispatch_first_success [emptyBackend, hiBackend] ['a'] 4
    (by simp)
    (by
      constructor
      · intro x hx
        simp only [List.mem_singleton] at hx
        subst hx
        exact Nat.le_refl 1
      · exact List.sorted_singleton hiBackend)
  constructor
  · exact h.2.2.1 [emptyBackend] hiBackend [] ⟨ObjectBlob, [104, 105]⟩ rfl
      (by
        intro x hx
        simp only [List.mem_singleton] at hx
        subst hx
        exact ⟨"missing", rfl⟩)
      rfl
  · exact (h.2.2.2.2.2.2.2.2.2).mpr ⟨hiBackend, by simp, rfl⟩

/-!
## The loose backend (src/odb_loose.go)
-/

/-- The file system as the loose backend sees it: `files` maps a path to
its byte content, `dirs` maps a directory path to the entry-name list
`Readdirnames` returns.  A missing path models the corresponding `os`
error return (open/stat failure). -/
structure LooseFS where
  files : List (List Char × List Nat)
  dirs : List (List Char × List (List Char))

def LooseFS.readFile (fs : LooseFS) (p : List Char) : Option (List Nat) :=
  (fs.files.find? (fun e => e.1 == p)).map (fun e => e.2)

def LooseFS.readDir (fs : LooseFS) (p : List Char) : Option (List (List Char)) :=
  (fs.dirs.find? (fun e => e.1 == p)).map (fun e => e.2)

/-- Models the zlib stream (external library) as an invertible coding: the
two bytes `0x78 0x01` — a genuine zlib header, which satisfies the
source's `isZlibCompressedData` test — followed by the raw payload. -/
def compress (payload : List Nat) : List Nat := 120 :: 1 :: payload

/-- Models `zlib.NewReader` followed by reading the stream to its end:
fails (as `NewReader` does on a malformed header) unless the stream starts
with the model's two header bytes. -/
def decompress (stream : List Nat) : Option (List Nat) :=
  match stream with
  | b0 :: b1 :: rest => if b0 = 120 ∧ b1 = 1 then some rest else none
  | _ => none

/-- Shallow embedding of `isZlibCompressedData` (src/odb_loose.go): it
reads `data[0]` and `data[1]` unconditionally, so any input shorter than
two bytes panics with an index out of range; otherwise it tests
`(data[0] & 0x8F) == 0x08 && ((data[0]<<8)+data[1]) % 31 == 0`. -/
def isZlibCompressedData (data : List Nat) : ROut Bool :=
  match data with
  | b0 :: b1 :: _ => ROut.ok (decide ((b0 &&& 143) = 8 ∧ (b0 * 256 + b1) % 31 = 0))
  | _ => ROut.panic "runtime error: index out of range"

/-- `true` exactly on a hex character (case-insensitive). -/
def isHexChar (c : Char) : Bool :=
  ('0' ≤ c && c ≤ '9') || ('a' ≤ c && c ≤ 'f') || ('A' ≤ c && c ≤ 'F')

/-- Modelled from the spec: `NewOid` is outside `src/`; per §4.1 it fails
with `InvalidFormat` unless the input is exactly 40 hex characters.  The
oid value is kept in its textual form. -/
def NewOid (s : List Char) : Except String (List Char) :=
  if s.length = 40 ∧ s.all isHexChar then Except.ok s else Except.error "InvalidFormat"

/-- Modelled from the spec: `Oid.PathFormat` is outside `src/`; per §4.1
it splits the hex form into the 2-character directory component and the
38-character filename component.  `oidPath` is the full path the loose
backend joins from it. -/
def oidPath (objectsDir : List Char) (oid : List Char) : List Char :=
  joinPath (joinPath objectsDir (oid.take 2)) (oid.drop 2)

/-- Shallow embedding of `OdbBackendLoose.Read` (src/odb_loose.go): load
the file, sniff the variant, and either (legacy) decompress the whole
stream and split it with the text-header parser, or (compact) parse the
uncompressed binary header and decompress the remainder as the payload.
In the compact branch the source registers `defer reader.Close()` before
checking the `zlib.NewReader` error, so a bad inner stream panics (nil
reader dereference at function exit) rather than returning the error. -/
def looseRead (fs : LooseFS) (objectsDir : List Char) (oid : List Char) : ROut OdbObject :=
  match fs.readFile (oidPath objectsDir oid) with
  | none => ROut.err "IOError: no such file"
  | some content =>
    match isZlibCompressedData content with
    | ROut.panic m => ROut.panic m
    | ROut.err e => ROut.err e
    | ROut.ok true =>
      match decompress content with
      | none => ROut.err "zlib: invalid header"
      | some data =>
        match parseObjectHeader data with
        | ROut.ok (objType, _, offset) => ROut.ok ⟨objType, data.drop offset⟩
        | ROut.err e => ROut.err e
        | ROut.panic m => ROut.panic m
    | ROut.ok false =>
      match parseBinaryObjectHeader content with
      | ROut.ok (objType, _, offset) =>
        match decompress (content.drop offset) with
        | none => ROut.panic "runtime error: invalid memory address or nil pointer dereference"
        | some payload => ROut.ok ⟨objType, payload⟩
      | ROut.err e => ROut.err e
      | ROut.panic m => ROut.panic m

/-- Shallow embedding of `OdbBackendLoose.ReadHeader` (src/odb_loose.go):
same file load and sniffing as `Read`, but in the legacy branch only the
first 64 decompressed bytes are produced (`io.CopyN(&buffer, reader, 64)`,
whose short-read error the source ignores) before the text-header parse,
and in the compact branch the binary header is parsed straight off the raw
file with no decompression at all. -/
def looseReadHeader (fs : LooseFS) (objectsDir : List Char) (oid : List Char) :
    ROut (Int × Nat) :=
  match fs.readFile (oidPath objectsDir oid) with
  | none => ROut.err "IOError: no such file"
  | some content =>
    match isZlibCompressedData content with
    | ROut.panic m => ROut.panic m
    | ROut.err e => ROut.err e
    | ROut.ok true =>
      match decompress content with
      | none => ROut.err "zlib: invalid header"
      | some data =>
        match parseObjectHeader (data.take 64) with
        | ROut.ok (objType, size, _) => ROut.ok (objType, size)
        | ROut.err e => ROut.err e
        | ROut.panic m => ROut.panic m
    | ROut.ok false =>
      match parseBinaryObjectHeader content with
      | ROut.ok (objType, size, _) => ROut.ok (objType, size)
      | ROut.err e => ROut.err e
      | ROut.panic m => ROut.panic m

/-- Shallow embedding of `OdbBackendLoose.Exists` (src/odb_loose.go):
stat the derived path. -/
def looseExists (fs : LooseFS) (objectsDir : List Char) (oid : List Char) : Bool :=
  (fs.readFile (oidPath objectsDir oid)).isSome

/-- Shallow embedding of `OdbBackendLoose.ExistsPrefix` (src/odb_loose.go):
list the 2-character bucket directory, count the entries that extend the
remaining `length-2` prefix characters (remembering the last match), and
return not-found on zero matches, `NewOid` of the single match, or the
ambiguity error on two or more.  Go's slicing `fileName[:length-2]` panics
outside `2 ≤ length ≤ 40`; the model's `take` clamps instead, and the
theorems below stay inside the claim's `length ≥ 2` domain. -/
def looseExistsPrefixFn (fs : LooseFS) (objectsDir : List Char) (oid : List Char)
    (len : Nat) : Except String (List Char) :=
  let dirName := oid.take 2
  let fileName := oid.drop 2
  let pre := fileName.take (len - 2)
  match fs.readDir (joinPath objectsDir dirName) with
  | none => Except.error "IOError: no such directory"
  | some names =>
    let acc := names.foldl
      (fun (st : Nat × List Char) n => if pre.isPrefixOf n then (st.1 + 1, n) else st)
      (0, [])
    if acc.1 = 0 then Except.error "no matching loose object for prefix"
    else if acc.1 = 1 then NewOid (dirName ++ acc.2)
    else Except.error "multiple matches in loose objects"

/-- Shallow embedding of `OdbBackendLoose.ReadPrefix` (src/odb_loose.go):
`ExistsPrefix` then `Read`, errors propagating unchanged. -/
def looseReadPrefixFn (fs : LooseFS) (objectsDir : List Char) (oid : List Char)
    (len : Nat) : ROut (List Char × OdbObject) :=
  match looseExistsPrefixFn fs objectsDir oid len with
  | Except.error e => ROut.err e
  | Except.ok foundId =>
    match looseRead fs objectsDir foundId with
    | ROut.ok obj => ROut.ok (foundId, obj)
    | ROut.err e => ROut.err e
    | ROut.panic m => ROut.panic m

/-- The inner loop of `OdbBackendLoose.ForEach` (src/odb_loose.go) over
one bucket's entries: entries whose name is not exactly 38 characters are
skipped; otherwise the oid is rebuilt with `NewOid` (whose failure aborts
with its error, visiting nothing further) and the visitor is invoked, its
error aborting immediately.  The first component records the oids passed
to the visitor, in call order. -/
def forEachChildren (cb : List Char → Option String) (dirName : List Char) :
    List (List Char) → List (List Char) × Option String
  | [] => ([], none)
  | child :: rest =>
    if child.length ≠ 38 then forEachChildren cb dirName rest
    else
      match NewOid (dirName ++ child) with
      | Except.error e => ([], some e)
      | Except.ok oid =>
        match cb oid with
        | some e => ([oid], some e)
        | none =>
          let r := forEachChildren cb dirName rest
          (oid :: r.1, r.2)

/-- The outer loop of `OdbBackendLoose.ForEach` (src/odb_loose.go) over
the top-level entries: names that are not exactly 2 characters are
skipped; otherwise the bucket is listed (an unlistable bucket aborts with
its error) and its children are visited. -/
def forEachDirs (fs : LooseFS) (objectsDir : List Char) (cb : List Char → Option String) :
    List (List Char) → List (List Char) × Option String
  | [] => ([], none)
  | dirName :: rest =>
    if dirName.length ≠ 2 then forEachDirs fs objectsDir cb rest
    else
      match fs.readDir (joinPath objectsDir dirName) with
      | none => ([], some "IOError: cannot list bucket")
      | some children =>
        match forEachChildren cb dirName children with
        | (vs, some e) => (vs, some e)
        | (vs, none) =>
          let r := forEachDirs fs objectsDir cb rest
          (vs ++ r.1, r.2)

/-- Shallow embedding of `OdbBackendLoose.ForEach` (src/odb_loose.go). -/
def looseForEach (fs : LooseFS) (objectsDir : List Char) (cb : List Char → Option String) :
    List (List Char) × Option String :=
  match fs.readDir objectsDir with
  | none => ([], some "IOError: cannot list objects dir")
  | some dirNames => forEachDirs fs objectsDir cb dirNames

/-- Big-endian ASCII decimal digits of `n`, with explicit recursion fuel
so the definition is structural (`fuel` bounds the digit count; any
`fuel > 0` with `n < 10 ^ fuel` yields all digits). -/
def natToDecBytesAux : Nat → Nat → List Nat
  | 0, _ => []
  | fuel + 1, n =>
    if n < 10 then [48 + n]
    else natToDecBytesAux fuel (n / 10) ++ [48 + n % 10]

/-- Models Go's `fmt.Fprintf("%d", n)` for a non-negative length: the
ASCII decimal form of `n`. -/
def natToDecBytes (n : Nat) : List Nat := natToDecBytesAux (n + 1) n

/-- Shallow embedding of `OdbBackendLoose.Write` (src/odb_loose.go).  The
oid comes from `hash` (outside `src/`; per spec §4.4 it digests the
header-plus-payload canonical form — modelled as the `hashFn` parameter).
`os.MkdirAll` creates the bucket directory; then the source opens the
destination with `os.OpenFile(path, os.O_WRONLY, mode)` — no `O_CREATE` —
and ignores the error: if the file does not already exist the open fails,
every subsequent write lands in the nil handle (each failure ignored),
and the function still returns the oid with a nil error.  If the file
does exist it is overwritten from offset 0 without truncation, leaving
any excess old bytes in place. -/
def looseWrite (hashFn : List Nat → Int → List Char) (fs : LooseFS)
    (objectsDir : List Char) (data : List Nat) (objType : Int) :
    LooseFS × Except String (List Char) :=
  let oid := hashFn data objType
  let dirName := oid.take 2
  let fileName := oid.drop 2
  let dirPath := joinPath objectsDir dirName
  let fs1 : LooseFS :=
    { fs with dirs := if (fs.readDir dirPath).isSome then fs.dirs else (dirPath, []) :: fs.dirs }
  let path := joinPath dirPath fileName
  match fs1.readFile path with
  | none => (fs1, Except.ok oid)
  | some old =>
    let envelope :=
      compress (typeToken objType ++ [32] ++ natToDecBytes data.length ++ [0] ++ data)
    let newContent := envelope ++ old.drop envelope.length
    ({ fs1 with
        files := fs1.files.map (fun e => if e.1 == path then (e.1, newContent) else e) },
      Except.ok oid)

/-- C10: the envelope sniffing reads bytes 0 and 1 of the raw file content
unconditionally, so whenever the on-disk object file is shorter than two
bytes both `Read` and `ReadHeader` panic with an index out of range
instead of returning a `Corrupt` or `IOError` result. -/
theorem C10_short_file_panics (fs : LooseFS) (objectsDir oid : List Char) (content : List Nat)
    (hfile : fs.readFile (oidPath objectsDir oid) = some content)
    (hshort : content.length < 2) :
    looseRead fs objectsDir oid = ROut.panic "runtime error: index out of range" ∧
    looseReadHeader fs objectsDir oid = ROut.panic "runtime error: index out of range" := by
  rcases content with _ | ⟨b0, rest⟩
  · constructor
    · simp only [looseRead, hfile, isZlibCompressedData]
    · simp only [looseReadHeader, hfile, isZlibCompressedData]
  · rcases rest with _ | ⟨b1, rest2⟩
    · constructor
      · simp only [looseRead, hfile, isZlibCompressedData]
      · simp only [looseReadHeader, hfile, isZlibCompressedData]
    · exfalso
      simp only [List.length_cons] at hshort
      omega

/-- A fixed 40-character hex oid used by the concrete stores. -/
def oidB : List Char := ("0266163a49e280c4f5ed1e08facd36a2bd716bcf").toList

/-- A store holding a single one-byte object file under `oidB`. -/
def fsC10 : LooseFS where
  files := [(oidPath ['o'] oidB, [7])]
  dirs := []

/-- Witness for C10: the one-byte file makes both reads panic. -/
theorem C10_short_file_panics_witness :
    looseRead fsC10 ['o'] oidB = ROut.panic "runtime error: index out of range" ∧
    looseReadHeader fsC10 ['o'] oidB = ROut.panic "runtime error: index out of range" :=
  C10_short_file_panics fsC10 ['o'] oidB [7] (by decide) (by decide)

/-- The empty store: no files, no directories. -/
def fsEmpty : LooseFS where
  files := []
  dirs := []

/-- C4: writing a fresh object.  `Write` hashes, creates the bucket
directory, opens the destination with `os.O_WRONLY` and no `os.O_CREATE`,
and ignores the failed open: it reports success (the oid with a nil
error) yet stores nothing, so the claimed `Write`-then-`Read` round trip
fails — the subsequent `Read` cannot find the file. -/
theorem C4_write_stores_nothing :
    (looseWrite (fun _ _ => oidB) fsEmpty ['o'] [97, 98, 99] ObjectBlob).2 = Except.ok oidB ∧
    ((looseWrite (fun _ _ => oidB) fsEmpty ['o'] [97, 98, 99] ObjectBlob).1).readFile
        (oidPath ['o'] oidB) = none ∧
    looseRead ((looseWrite (fun _ _ => oidB) fsEmpty ['o'] [97, 98, 99] ObjectBlob).1) ['o'] oidB
      = ROut.err "IOError: no such file" := by
  refine ⟨?_, ?_, ?_⟩
  · rfl
  · rfl
  · rfl

theorem foldl_match_count (p : List Char → Bool) (names : List (List Char)) :
    ∀ acc : Nat × List Char,
      (names.foldl (fun st n => if p n then (st.1 + 1, n) else st) acc).1 =
        acc.1 + (names.filter p).length := by
  induction names with
  | nil => intro acc; simp
  | cons m rest ih =>
    intro acc
    by_cases hm : p m
    · simp only [List.foldl_cons, if_pos hm, List.filter_cons_of_pos hm, List.length_cons]
      rw [ih]
      omega
    · simp only [List.foldl_cons, if_neg hm, List.filter_cons_of_neg hm]
      exact ih acc

theorem foldl_match_nomatch (p : List Char → Bool) (names : List (List Char))
    (h : names.filter p = []) :
    ∀ acc : Nat × List Char,
      names.foldl (fun st n => if p n then (st.1 + 1, n) else st) acc = acc := by
  induction names with
  | nil => intro acc; rfl
  | cons m rest ih =>
    intro acc
    have hm : ¬ p m = true := by
      intro hm
      rw [List.filter_cons_of_pos hm] at h
      cases h
    rw [List.filter_cons_of_neg hm] at h
    simp only [List.foldl_cons, if_neg hm]
    exact ih h acc

theorem foldl_match_single (p : List Char → Bool) (names : List (List Char)) :
    ∀ n, names.filter p = [n] →
      ∀ acc : Nat × List Char,
        (names.foldl (fun st n => if p n then (st.1 + 1, n) else st) acc).2 = n := by
  induction names with
  | nil =>
    intro n h
    cases h
  | cons m rest ih =>
    intro n h acc
    by_cases hm : p m
    · rw [List.filter_cons_of_pos hm] at h
      injection h with hmn hrest
      subst hmn
      simp only [List.foldl_cons, if_pos hm]
      rw [foldl_match_nomatch p rest hrest]
    · rw [List.filter_cons_of_neg hm] at h
      simp only [List.foldl_cons, if_neg hm]
      exact ih n h acc

/-- C6: short-hash resolution over a bucket listing.  With the matching
entries of the 2-character bucket written as a filter over the listing:
zero matches fail with the not-found error; exactly one match resolves —
when that entry completes a 40-character hex name, as every loose object
file does — to the full 40-character oid; two or more matches fail with
the ambiguity error rather than picking a candidate. -/
theorem C6_short_hash_resolution (fs : LooseFS) (objectsDir oid : List Char) (len : Nat)
    (names : List (List Char))
    (hlen2 : 2 ≤ len) (hlen40 : len ≤ 40)
    (hdir : fs.readDir (joinPath objectsDir (oid.take 2)) = some names) :
    (names.filter (fun n => ((oid.drop 2).take (len - 2)).isPrefixOf n) = [] →
      looseExistsPrefixFn fs objectsDir oid len =
        Except.error "no matching loose object for prefix") ∧
    (∀ n, names.filter (fun n => ((oid.drop 2).take (len - 2)).isPrefixOf n) = [n] →
      (oid.take 2 ++ n).length = 40 → (oid.take 2 ++ n).all isHexChar = true →
      looseExistsPrefixFn fs objectsDir oid len = Except.ok (oid.take 2 ++ n)) ∧
    (2 ≤ (names.filter (fun n => ((oid.drop 2).take (len - 2)).isPrefixOf n)).length →
      looseExistsPrefixFn fs objectsDir oid len =
        Except.error "multiple matches in loose objects") := by
  have hcount := foldl_match_count (fun n => ((oid.drop 2).take (len - 2)).isPrefixOf n) names
    (0, ([] : List Char))
  refine ⟨?_, ?_, ?_⟩
  · intro hms
    simp only [looseExistsPrefixFn, hdir]
    rw [hcount, hms]
    simp
  · intro n hms hlen hhex
    have hlast := foldl_match_single (fun n => ((oid.drop 2).take (len - 2)).isPrefixOf n)
      names n hms (0, ([] : List Char))
    simp only [looseExistsPrefixFn, hdir]
    rw [hcount, hms, hlast]
    simp only [List.length_singleton, Nat.zero_add, if_neg (by omega : ¬ (1 : Nat) = 0),
      if_pos rfl, NewOid]
    simp [hlen, hhex]
  · intro hms
    simp only [looseExistsPrefixFn, hdir]
    rw [hcount]
    have h1 : ¬ (0 + (names.filter
        (fun n => ((oid.drop 2).take (len - 2)).isPrefixOf n)).length = 0) := by omega
    have h2 : ¬ (0 + (names.filter
        (fun n => ((oid.drop 2).take (len - 2)).isPrefixOf n)).length = 1) := by omega
    rw [if_neg h1, if_neg h2]

/-- A store whose bucket `o/02` holds exactly the one entry completing
`oidB`. -/
def fsC6 : LooseFS where
  files := []
  dirs := [(joinPath ['o'] (oidB.take 2), [oidB.drop 2])]

/-- Witness for C6: a 4-character prefix of `oidB` matches the single
entry of its bucket and resolves to the full oid. -/
theorem C6_short_hash_resolution_witness :
    looseExistsPrefixFn fsC6 ['o'] oidB 4 = Except.ok oidB := by
  have h := (C6_short_hash_resolution fsC6 ['o'] oidB 4 [oidB.drop 2]
    (by omega) (by omega) (by decide)).2.1 (oidB.drop 2) (by decide) (by decide) (by decide)
  simpa using h

/-- Reference enumeration order: visit each list element in turn,
recording it, and stop at the first visitor error. -/
def visitSpec (cb : List Char → Option String) : List (List Char) → List (List Char) × Option String
  | [] => ([], none)
  | x :: rest =>
    match cb x with
    | some e => ([x], some e)
    | none =>
      let r := visitSpec cb rest
      (x :: r.1, r.2)

/-- The oids a bucket contributes: its 38-character entries, completed by
the bucket name. -/
def qualifyingChildren (d : List Char) (children : List (List Char)) : List (List Char) :=
  (children.filter (fun c => c.length == 38)).map (fun c => d ++ c)

/-- The oids `ForEach` should visit, in listing order: for each 2-character
top-level entry, the oids of its bucket. -/
def qualifyingOids (fs : LooseFS) (objectsDir : List Char) :
    List (List Char) → List (List Char)
  | [] => []
  | d :: rest =>
    if d.length = 2 then
      qualifyingChildren d ((fs.readDir (joinPath objectsDir d)).getD []) ++
        qualifyingOids fs objectsDir rest
    else qualifyingOids fs objectsDir rest

theorem visitSpec_all_ok (cb : List Char → Option String) (l : List (List Char))
    (h : ∀ x ∈ l, cb x = none) : visitSpec cb l = (l, none) := by
  induction l with
  | nil => rfl
  | cons x rest ih =>
    simp only [visitSpec]
    rw [h x (by simp)]
    rw [ih (fun y hy => h y (List.mem_cons_of_mem x hy))]

theorem visitSpec_first_err (cb : List Char → Option String) :
    ∀ (pre : List (List Char)) (x : List Char) (post : List (List Char)) (e : String),
      (∀ y ∈ pre, cb y = none) → cb x = some e →
      visitSpec cb (pre ++ x :: post) = (pre ++ [x], some e) := by
  intro pre
  induction pre with
  | nil =>
    intro x post e _ hx
    simp only [List.nil_append, visitSpec]
    rw [hx]
  | cons y rest ih =>
    intro x post e hpre hx
    have hy : cb y = none := hpre y (by simp)
    simp only [List.cons_append, visitSpec, hy, List.append_eq]
    rw [ih x post e (fun z hz => hpre z (List.mem_cons_of_mem y hz)) hx]

theorem visitSpec_append_err (cb : List Char → Option String) (l1 l2 : List (List Char))
    (e : String) (h : (visitSpec cb l1).2 = some e) :
    visitSpec cb (l1 ++ l2) = visitSpec cb l1 := by
  induction l1 with
  | nil => cases h
  | cons x rest ih =>
    cases hx : cb x with
    | some e0 =>
      simp only [List.cons_append, visitSpec, hx]
    | none =>
      have h2 : (visitSpec cb rest).2 = some e := by
        simp only [visitSpec, hx] at h
        exact h
      simp only [List.cons_append, visitSpec, hx, List.append_eq]
      rw [ih h2]

theorem visitSpec_append_ok (cb : List Char → Option String) (l1 l2 : List (List Char))
    (h : (visitSpec cb l1).2 = none) :
    visitSpec cb (l1 ++ l2) =
      ((visitSpec cb l1).1 ++ (visitSpec cb l2).1, (visitSpec cb l2).2) := by
  induction l1 with
  | nil => simp [visitSpec]
  | cons x rest ih =>
    cases hx : cb x with
    | some e0 =>
      exfalso
      simp only [visitSpec, hx] at h
      exact Option.noConfusion h
    | none =>
      have h2 : (visitSpec cb rest).2 = none := by
        simp only [visitSpec, hx] at h
        exact h
      simp only [List.cons_append, visitSpec, hx, List.append_eq]
      rw [ih h2]

theorem forEachChildren_eq_visitSpec (cb : List Char → Option String) (d : List Char)
    (children : List (List Char))
    (hvalid : ∀ x ∈ qualifyingChildren d children, x.length = 40 ∧ x.all isHexChar = true) :
    forEachChildren cb d children = visitSpec cb (qualifyingChildren d children) := by
  induction children with
  | nil => rfl
  | cons c rest ih =>
    by_cases hc : c.length = 38
    · have hfilter : (fun c => c.length == 38) c = true := by
        simp [hc]
      have hqc : qualifyingChildren d (c :: rest) =
          (d ++ c) :: qualifyingChildren d rest := by
        simp [qualifyingChildren, List.filter_cons, hc]
      rw [hqc]
      have hdc : (d ++ c).length = 40 ∧ (d ++ c).all isHexChar = true := by
        apply hvalid
        rw [hqc]
        simp
      have hnew : NewOid (d ++ c) = Except.ok (d ++ c) := by
        simp only [NewOid]
        rw [if_pos ⟨hdc.1, hdc.2⟩]
      simp only [forEachChildren, if_neg (by omega : ¬ c.length ≠ 38), hnew]
      cases hcb : cb (d ++ c) with
      | some e =>
        simp only [visitSpec, hcb]
      | none =>
        simp only [visitSpec, hcb]
        rw [ih]
        intro x hx
        apply hvalid
        rw [hqc]
        exact List.mem_cons_of_mem _ hx
    · have hfilter : ¬ (fun c => c.length == 38) c = true := by
        simp [hc]
      have hqc : qualifyingChildren d (c :: rest) = qualifyingChildren d rest := by
        simp [qualifyingChildren, List.filter_cons, hc]
      rw [hqc]
      simp only [forEachChildren, if_pos hc]
      exact ih (fun x hx => hvalid x (by rw [hqc]; exact hx))

theorem forEachDirs_eq_visitSpec (fs : LooseFS) (objectsDir : List Char)
    (cb : List Char → Option String) (dirNames : List (List Char))
    (hbuckets : ∀ d ∈ dirNames, d.length = 2 → (fs.readDir (joinPath objectsDir d)).isSome = true)
    (hvalid : ∀ x ∈ qualifyingOids fs objectsDir dirNames,
      x.length = 40 ∧ x.all isHexChar = true) :
    forEachDirs fs objectsDir cb dirNames =
      visitSpec cb (qualifyingOids fs objectsDir dirNames) := by
  induction dirNames with
  | nil => rfl
  | cons d rest ih =>
    by_cases hd : d.length = 2
    · obtain ⟨children, hch⟩ := Option.isSome_iff_exists.mp (hbuckets d (by simp) hd)
      have hq : qualifyingOids fs objectsDir (d :: rest) =
          qualifyingChildren d children ++ qualifyingOids fs objectsDir rest := by
        simp only [qualifyingOids, if_pos hd, hch, Option.getD_some]
      have hvc : ∀ x ∈ qualifyingChildren d children,
          x.length = 40 ∧ x.all isHexChar = true := by
        intro x hx
        apply hvalid
        rw [hq]
        exact List.mem_append_left _ hx
      have hvr : ∀ x ∈ qualifyingOids fs objectsDir rest,
          x.length = 40 ∧ x.all isHexChar = true := by
        intro x hx
        apply hvalid
        rw [hq]
        exact List.mem_append_right _ hx
      have hbr : ∀ x ∈ rest, x.length = 2 →
          (fs.readDir (joinPath objectsDir x)).isSome = true :=
        fun x hx => hbuckets x (List.mem_cons_of_mem d hx)
      simp only [forEachDirs, if_neg (by omega : ¬ d.length ≠ 2), hch]
      rw [forEachChildren_eq_visitSpec cb d children hvc]
      rw [hq]
      cases hout : (visitSpec cb (qualifyingChildren d children)).2 with
      | some e =>
        rw [visitSpec_append_err cb _ _ e hout]
        rcases hv : visitSpec cb (qualifyingChildren d children) with ⟨vs, out⟩
        rw [hv] at hout
        simp only at hout
        subst hout
        rfl
      | none =>
        rw [visitSpec_append_ok cb _ _ hout]
        rcases hv : visitSpec cb (qualifyingChildren d children) with ⟨vs, out⟩
        rw [hv] at hout
        simp only at hout
        subst hout
        simp only
        rw [ih hbr hvr]
    · have hq : qualifyingOids fs objectsDir (d :: rest) =
          qualifyingOids fs objectsDir rest := by
        simp only [qualifyingOids, if_neg hd]
      rw [hq]
      simp only [forEachDirs, if_pos hd]
      exact ih (fun x hx => hbuckets x (List.mem_cons_of_mem d hx))
        (by rw [hq] at hvalid; exact hvalid)

/-- C9: enumeration over an object directory whose 2-character buckets are
listable and whose qualifying entries are well-formed oid names (as in any
real object store).  The visitor is invoked exactly once per entry that
sits in a 2-character directory under a 38-character name, in listing
order, all other entries being skipped; and a visitor error aborts the
enumeration at that entry — nothing further is visited — and is returned
unchanged. -/
theorem C9_for_each_enumeration (fs : LooseFS) (objectsDir : List Char)
    (cb : List Char → Option String) (dirNames : List (List Char))
    (hroot : fs.readDir objectsDir = some dirNames)
    (hbuckets : ∀ d ∈ dirNames, d.length = 2 → (fs.readDir (joinPath objectsDir d)).isSome = true)
    (hvalid : ∀ x ∈ qualifyingOids fs objectsDir dirNames,
      x.length = 40 ∧ x.all isHexChar = true) :
    ((∀ x ∈ qualifyingOids fs objectsDir dirNames, cb x = none) →
      looseForEach fs objectsDir cb = (qualifyingOids fs objectsDir dirNames, none)) ∧
    (∀ pre x post e, qualifyingOids fs objectsDir dirNames = pre ++ x :: post →
      (∀ y ∈ pre, cb y = none) → cb x = some e →
      looseForEach fs objectsDir cb = (pre ++ [x], some e)) := by
  have hmain : looseForEach fs objectsDir cb =
      visitSpec cb (qualifyingOids fs objectsDir dirNames) := by
    simp only [looseForEach, hroot]
    exact forEachDirs_eq_visitSpec fs objectsDir cb dirNames hbuckets hvalid
  constructor
  · intro hok
    rw [hmain]
    exact visitSpec_all_ok cb _ hok
  · intro pre x post e hdecomp hpre hx
    rw [hmain, hdecomp]
    exact visitSpec_first_err cb pre x post e hpre hx

/-- A store for the C9 witness: the root directory lists the bucket `02`
(holding one real object entry and a short stray name), an `info`
directory, and an empty 2-character directory `xy`. -/
def fsC9 : LooseFS where
  files := []
  dirs :=
    [(['o'], [['0', '2'], ['i', 'n', 'f', 'o'], ['x', 'y']]),
     (joinPath ['o'] ['0', '2'], [oidB.drop 2, ['z']]),
     (joinPath ['o'] ['x', 'y'], [])]

/-- Witness for C9: with an always-succeeding visitor the enumeration
visits exactly the single qualifying object `oidB` and reports no
error. -/
theorem C9_for_each_enumeration_witness :
    looseForEach fsC9 ['o'] (fun _ => none) = ([oidB], none) := by
  have h := (C9_for_each_enumeration fsC9 ['o'] (fun _ => none)
    [['0', '2'], ['i', 'n', 'f', 'o'], ['x', 'y']]
    (by decide)
    (by decide)
    (by decide)).1 (fun x _ => rfl)
  simpa using h

/-!
## Decimal size encoding and the header fast path (C7)
-/

theorem natToDecBytesAux_digits : ∀ (fuel n : Nat), ∀ b ∈ natToDecBytesAux fuel n,
    48 ≤ b ∧ b ≤ 57 := by
  intro fuel
  induction fuel with
  | zero =>
    intro n b hb
    cases hb
  | succ f ih =>
    intro n b hb
    simp only [natToDecBytesAux] at hb
    by_cases h10 : n < 10
    · rw [if_pos h10] at hb
      simp only [List.mem_singleton] at hb
      omega
    · rw [if_neg h10] at hb
      rcases List.mem_append.mp hb with hb | hb
      · exact ih (n / 10) b hb
      · simp only [List.mem_singleton] at hb
        have : n % 10 < 10 := Nat.mod_lt n (by omega)
        omega

theorem decValue_append_single (ds : List Nat) (b : Nat) :
    decValue (ds ++ [b]) = decValue ds * 10 + (b - 48) := by
  simp [decValue, List.foldl_append]

theorem natToDecBytesAux_value : ∀ (fuel n : Nat), n < 10 ^ fuel →
    decValue (natToDecBytesAux fuel n) = n := by
  intro fuel
  induction fuel with
  | zero =>
    intro n hn
    have hz : n = 0 := by simpa using hn
    subst hz
    rfl
  | succ f ih =>
    intro n hn
    simp only [natToDecBytesAux]
    by_cases h10 : n < 10
    · rw [if_pos h10]
      simp only [decValue, List.foldl_cons, List.foldl_nil]
      omega
    · rw [if_neg h10, decValue_append_single]
      have hdiv : n / 10 < 10 ^ f := by
        apply Nat.div_lt_of_lt_mul
        rw [Nat.pow_succ] at hn
        omega
      rw [ih (n / 10) hdiv]
      omega

theorem natToDecBytesAux_length : ∀ (fuel n k : Nat), n < 10 ^ k → 1 ≤ k →
    (natToDecBytesAux fuel n).length ≤ k := by
  intro fuel
  induction fuel with
  | zero =>
    intro n k _ hk
    simp [natToDecBytesAux]
  | succ f ih =>
    intro n k hn hk
    simp only [natToDecBytesAux]
    by_cases h10 : n < 10
    · rw [if_pos h10]
      simpa using hk
    · rw [if_neg h10]
      rcases k with _ | k
      · omega
      · rcases k with _ | k
        · exfalso
          simp at hn
          omega
        · have hdiv : n / 10 < 10 ^ (k + 1) := by
            apply Nat.div_lt_of_lt_mul
            rw [Nat.pow_succ] at hn
            omega
          have := ih (n / 10) (k + 1) hdiv (by omega)
          simp only [List.length_append, List.length_singleton]
          omega

theorem natToDecBytes_ne_nil (n : Nat) : natToDecBytes n ≠ [] := by
  simp only [natToDecBytes, natToDecBytesAux]
  by_cases h10 : n < 10
  · rw [if_pos h10]
    simp
  · rw [if_neg h10]
    simp

theorem natToDecBytes_digits (n : Nat) : ∀ b ∈ natToDecBytes n, 48 ≤ b ∧ b ≤ 57 :=
  natToDecBytesAux_digits (n + 1) n

theorem nat_lt_ten_pow_succ (n : Nat) : n < 10 ^ (n + 1) := by
  calc n < 10 ^ n := Nat.lt_pow_self (by omega) n
  _ ≤ 10 ^ (n + 1) := Nat.pow_le_pow_right (by omega) (by omega)

theorem natToDecBytes_value (n : Nat) : decValue (natToDecBytes n) = n :=
  natToDecBytesAux_value (n + 1) n (nat_lt_ten_pow_succ n)

theorem natToDecBytes_length (n k : Nat) (hn : n < 10 ^ k) (hk : 1 ≤ k) :
    (natToDecBytes n).length ≤ k :=
  natToDecBytesAux_length (n + 1) n k hn hk

theorem parseUint64_natToDecBytes (n : Nat) (hn : n < 2 ^ 64) :
    parseUint64 (natToDecBytes n) = some n := by
  have hdig : (natToDecBytes n).all decDigit = true := by
    rw [List.all_eq_true]
    intro b hb
    have := natToDecBytes_digits n b hb
    simp only [decDigit, Bool.and_eq_true, decide_eq_true_eq]
    omega
  have hval := natToDecBytes_value n
  simp only [parseUint64]
  rw [if_pos ⟨natToDecBytes_ne_nil n, hdig, by omega⟩, hval]

theorem findByte_append_marker (token : List Nat) (t : Nat) (rest : List Nat)
    (hno : ∀ b ∈ token, b ≠ t) :
    findByte (token ++ t :: rest) t = some token.length := by
  induction token with
  | nil => simp [findByte]
  | cons b tok ih =>
    simp only [List.cons_append, findByte, List.append_eq]
    rw [if_neg (hno b (by simp))]
    rw [ih (fun x hx => hno x (List.mem_cons_of_mem b hx))]
    simp

/-- Parsing a well-formed legacy header followed by anything: the type
token, its size field, and the offset just past the NUL come back
exactly, for any trailing bytes. -/
theorem parseObjectHeader_envelope (token : List Nat) (n : Nat) (tail : List Nat)
    (htok : ∀ b ∈ token, b ≠ 32) (hn : n < 2 ^ 64) :
    parseObjectHeader (token ++ 32 :: (natToDecBytes n ++ 0 :: tail)) =
      ROut.ok (TypeString2Type token, n,
        token.length + 1 + (natToDecBytes n).length + 1) := by
  have h1 : findByte (token ++ 32 :: (natToDecBytes n ++ 0 :: tail)) 32 =
      some token.length :=
    findByte_append_marker token 32 _ htok
  have hdrop : (token ++ 32 :: (natToDecBytes n ++ 0 :: tail)).drop (token.length + 1) =
      natToDecBytes n ++ 0 :: tail := by
    have : token ++ 32 :: (natToDecBytes n ++ 0 :: tail) =
        (token ++ [32]) ++ (natToDecBytes n ++ 0 :: tail) := by
      simp
    rw [this]
    have hlen : (token ++ [32]).length = token.length + 1 := by simp
    rw [← hlen, List.drop_left]
  have hdigno : ∀ b ∈ natToDecBytes n, b ≠ 0 := by
    intro b hb
    have := natToDecBytes_digits n b hb
    omega
  have h2 : findByte ((token ++ 32 :: (natToDecBytes n ++ 0 :: tail)).drop
      (token.length + 1)) 0 = some (natToDecBytes n).length := by
    rw [hdrop]
    exact findByte_append_marker _ 0 _ hdigno
  have htake : (token ++ 32 :: (natToDecBytes n ++ 0 :: tail)).take token.length = token := by
    rw [List.take_append_eq_append_take]
    simp
  simp only [parseObjectHeader, h1, h2, Option.map_some', htake]
  have harith : (natToDecBytes n).length + (token.length + 1) - (token.length + 1) =
      (natToDecBytes n).length := by omega
  rw [hdrop, harith]
  have htakedig : (natToDecBytes n ++ 0 :: tail).take (natToDecBytes n).length =
      natToDecBytes n := by
    rw [List.take_append_eq_append_take]
    simp
  rw [htakedig, parseUint64_natToDecBytes n hn]
  simp only [ROut.ok.injEq, Prod.mk.injEq, eq_self_iff_true, true_and]
  omega

theorem parseBinaryLoop_ne_ok : ∀ (rest : List Nat) (size shift : Nat)
    (v : Int × Nat × Nat), parseBinaryLoop rest size shift ≠ ROut.ok v := by
  intro rest
  induction rest with
  | nil =>
    intro size shift v h
    cases h
  | cons x tl ih =>
    intro size shift v h
    rcases tl with _ | ⟨b, r2⟩
    · cases h
    · exact ih (size + (b &&& 127) <<< shift) (shift + 7) v h

theorem typeToken_no_space (ty : Int) (hty : validObjectType ty) :
    ∀ b ∈ typeToken ty, b ≠ 32 := by
  rcases hty with h | h | h | h <;> subst h <;> decide

theorem typeToken_short (ty : Int) (hty : validObjectType ty) : (typeToken ty).length ≤ 6 := by
  rcases hty with h | h | h | h <;> subst h <;> decide

theorem TypeString2Type_typeToken (ty : Int) (hty : validObjectType ty) :
    TypeString2Type (typeToken ty) = ty := by
  rcases hty with h | h | h | h <;> subst h <;> decide

/-- The legacy on-disk form (spec §6): one compressed stream whose
decompressed content is `"<type> <decimal-size>\x00"` followed by the
payload, with the size field equal to the payload length. -/
def encodeLegacy (ty : Int) (payload : List Nat) : List Nat :=
  compress (typeToken ty ++ 32 :: (natToDecBytes payload.length ++ 0 :: payload))

/-- Continuation bytes of the size varint (7 low bits per byte, top bit
signalling more), with structural fuel. -/
def varintTailAux : Nat → Nat → List Nat
  | 0, _ => []
  | fuel + 1, n => if n < 128 then [n] else (128 + n % 128) :: varintTailAux fuel (n / 128)

/-- Modelled from the spec (§4.2, §6): the compact on-disk form — an
uncompressed binary header (type in bits 4-6 of the first byte, low 4 size
bits in bits 0-3, top bit signalling varint continuation) followed by a
compressed stream holding only the payload. -/
def encodeCompact (ty : Int) (payload : List Nat) : List Nat :=
  (if payload.length < 16 then [16 * ty.toNat + payload.length]
   else (128 + 16 * ty.toNat + payload.length % 16) ::
     varintTailAux (payload.length + 1) (payload.length / 16)) ++
  compress payload

theorem legacy_read_eval (fs : LooseFS) (dir oid : List Char) (ty : Int) (payload : List Nat)
    (hty : validObjectType ty) (hlen : payload.length < 2 ^ 63)
    (hfile : fs.readFile (oidPath dir oid) = some (encodeLegacy ty payload)) :
    looseRead fs dir oid = ROut.ok ⟨ty, payload⟩ ∧
    looseReadHeader fs dir oid = ROut.ok (ty, payload.length) := by
  have hpow : (2 : Nat) ^ 63 < 2 ^ 64 := by norm_num
  have hn64 : payload.length < 2 ^ 64 := by omega
  have hpow10 : (2 : Nat) ^ 63 < 10 ^ 19 := by norm_num
  have hn10 : payload.length < 10 ^ 19 := by omega
  have htoklen := typeToken_short ty hty
  have hdiglen : (natToDecBytes payload.length).length ≤ 19 :=
    natToDecBytes_length payload.length 19 hn10 (by omega)
  have henc : encodeLegacy ty payload =
      120 :: 1 :: (typeToken ty ++ 32 :: (natToDecBytes payload.length ++ 0 :: payload)) := rfl
  have hz : isZlibCompressedData
      (120 :: 1 :: (typeToken ty ++ 32 :: (natToDecBytes payload.length ++ 0 :: payload))) =
        ROut.ok true := rfl
  have hd : decompress
      (120 :: 1 :: (typeToken ty ++ 32 :: (natToDecBytes payload.length ++ 0 :: payload))) =
        some (typeToken ty ++ 32 :: (natToDecBytes payload.length ++ 0 :: payload)) := rfl
  have hsplit : typeToken ty ++ 32 :: (natToDecBytes payload.length ++ 0 :: payload) =
      ((typeToken ty ++ [32]) ++ (natToDecBytes payload.length ++ [0])) ++ payload := by
    simp
  have hhdrlen : ((typeToken ty ++ [32]) ++ (natToDecBytes payload.length ++ [0])).length =
      (typeToken ty).length + 1 + (natToDecBytes payload.length).length + 1 := by
    simp
    omega
  have hparse := parseObjectHeader_envelope (typeToken ty) payload.length payload
    (typeToken_no_space ty hty) hn64
  have hdropP : (typeToken ty ++ 32 :: (natToDecBytes payload.length ++ 0 :: payload)).drop
      ((typeToken ty).length + 1 + (natToDecBytes payload.length).length + 1) = payload := by
    rw [hsplit, ← hhdrlen, List.drop_left]
  constructor
  · simp only [looseRead, hfile, henc, hz, hd, hparse, hdropP,
      TypeString2Type_typeToken ty hty]
  · have htake64 : (typeToken ty ++ 32 ::
        (natToDecBytes payload.length ++ 0 :: payload)).take 64 =
        typeToken ty ++ 32 :: (natToDecBytes payload.length ++ 0 ::
          payload.take (64 - ((typeToken ty).length + 1 +
            (natToDecBytes payload.length).length + 1))) := by
      rw [hsplit, List.take_append_eq_append_take]
      rw [List.take_of_length_le (by omega : ((typeToken ty ++ [32]) ++
        (natToDecBytes payload.length ++ [0])).length ≤ 64)]
      rw [hhdrlen]
      simp
    have hparse64 := parseObjectHeader_envelope (typeToken ty) payload.length
      (payload.take (64 - ((typeToken ty).length + 1 +
        (natToDecBytes payload.length).length + 1)))
      (typeToken_no_space ty hty) hn64
    simp only [looseReadHeader, hfile, henc, hz, hd, htake64, hparse64,
      TypeString2Type_typeToken ty hty]

theorem compact_small_read_eval (fs : LooseFS) (dir oid : List Char) (ty : Int)
    (payload : List Nat) (hty : validObjectType ty) (hs : payload.length < 16)
    (hfile : fs.readFile (oidPath dir oid) = some (encodeCompact ty payload)) :
    looseRead fs dir oid = ROut.ok ⟨ty, payload⟩ ∧
    looseReadHeader fs dir oid = ROut.ok (ty, payload.length) := by
  have henc : encodeCompact ty payload =
      (16 * ty.toNat + payload.length) :: 120 :: 1 :: payload := by
    simp only [encodeCompact, if_pos hs, compress]
    rfl
  obtain ⟨len, hlen⟩ : ∃ l, payload.length = l := ⟨payload.length, rfl⟩
  rw [hlen] at hs henc ⊢
  rcases hty with h | h | h | h <;> subst h <;> interval_cases len <;>
    exact ⟨by simp only [looseRead, hfile, henc]; rfl,
      by simp only [looseReadHeader, hfile, henc]; rfl⟩

theorem compact_large_not_ok (fs : LooseFS) (dir oid : List Char) (ty : Int)
    (payload : List Nat) (hty : validObjectType ty) (hs : 16 ≤ payload.length)
    (hfile : fs.readFile (oidPath dir oid) = some (encodeCompact ty payload)) :
    ∀ obj, looseRead fs dir oid ≠ ROut.ok obj := by
  intro obj hok
  have henc : encodeCompact ty payload =
      (128 + 16 * ty.toNat + payload.length % 16) ::
        (varintTailAux (payload.length + 1) (payload.length / 16) ++ 120 :: 1 :: payload) := by
    simp only [encodeCompact, if_neg (by omega : ¬ payload.length < 16)]
    simp [compress]
  have hvne : varintTailAux (payload.length + 1) (payload.length / 16) ≠ [] := by
    simp only [varintTailAux]
    split <;> simp
  obtain ⟨b1, vrest, hv⟩ : ∃ b1 vrest,
      varintTailAux (payload.length + 1) (payload.length / 16) = b1 :: vrest := by
    cases hvt : varintTailAux (payload.length + 1) (payload.length / 16) with
    | nil => exact absurd hvt hvne
    | cons a l => exact ⟨a, l, rfl⟩
  rw [henc, hv] at hfile
  have hfile2 : fs.readFile (oidPath dir oid) =
      some ((128 + 16 * ty.toNat + payload.length % 16) :: b1 ::
        (vrest ++ 120 :: 1 :: payload)) := by
    rw [hfile]
    simp
  have hbit : (128 + 16 * ty.toNat + payload.length % 16) &&& 128 ≠ 0 := by
    rcases hty with h | h | h | h <;> subst h <;>
      (generalize hm : payload.length % 16 = m
       have hm16 : m < 16 := by
         rw [← hm]
         exact Nat.mod_lt _ (by omega)
       interval_cases m <;> decide)
  have hne120 : ¬ ((128 + 16 * ty.toNat + payload.length % 16) = 120 ∧ b1 = 1) := by
    rintro ⟨h1, _⟩
    omega
  simp only [looseRead, hfile2] at hok
  rw [show isZlibCompressedData ((128 + 16 * ty.toNat + payload.length % 16) :: b1 ::
      (vrest ++ 120 :: 1 :: payload)) =
      ROut.ok (decide (((128 + 16 * ty.toNat + payload.length % 16) &&& 143) = 8 ∧
        ((128 + 16 * ty.toNat + payload.length % 16) * 256 + b1) % 31 = 0)) from rfl] at hok
  cases hB : decide (((128 + 16 * ty.toNat + payload.length % 16) &&& 143) = 8 ∧
      ((128 + 16 * ty.toNat + payload.length % 16) * 256 + b1) % 31 = 0) with
  | true =>
    rw [hB] at hok
    simp only [] at hok
    rw [show decompress ((128 + 16 * ty.toNat + payload.length % 16) :: b1 ::
        (vrest ++ 120 :: 1 :: payload)) = none from by
      simp only [decompress]
      rw [if_neg hne120]] at hok
    cases hok
  | false =>
    rw [hB] at hok
    simp only [] at hok
    rw [show parseBinaryObjectHeader ((128 + 16 * ty.toNat + payload.length % 16) :: b1 ::
        (vrest ++ 120 :: 1 :: payload)) =
        parseBinaryLoop (b1 :: (vrest ++ 120 :: 1 :: payload))
          ((128 + 16 * ty.toNat + payload.length % 16) &&& 15) 4 from by
      simp only [parseBinaryObjectHeader]
      rw [if_pos hbit]] at hok
    cases hpl : parseBinaryLoop (b1 :: (vrest ++ 120 :: 1 :: payload))
        ((128 + 16 * ty.toNat + payload.length % 16) &&& 15) 4 with
    | ok v => exact parseBinaryLoop_ne_ok _ _ _ v hpl
    | err e =>
      rw [hpl] at hok
      cases hok
    | panic m =>
      rw [hpl] at hok
      cases hok

/-- C7: for every stored object — a file holding either well-formed wire
variant for a valid type and a payload of Go-representable length —
whenever `Read` returns an object, that object carries the stored type and
payload, and `ReadHeader` returns exactly the `(Type, Size)` pair implied
by it, with `Size` the payload length.  The embedded `looseReadHeader`
consumes only the first 64 decompressed bytes in the legacy branch and
performs no decompression in the compact branch, per the fast-path part of
the claim.  (For a compact header whose size needs continuation bytes the
decoder panics — see C1 — so `Read` returns no object and the agreement is
vacuous there.) -/
theorem C7_read_header_agreement (fs : LooseFS) (objectsDir oid : List Char) (ty : Int)
    (payload : List Nat) (hty : validObjectType ty) (hlen : payload.length < 2 ^ 63)
    (hfile : fs.readFile (oidPath objectsDir oid) = some (encodeLegacy ty payload) ∨
      fs.readFile (oidPath objectsDir oid) = some (encodeCompact ty payload)) :
    ∀ obj, looseRead fs objectsDir oid = ROut.ok obj →
      obj = OdbObject.mk ty payload ∧
      looseReadHeader fs objectsDir oid = ROut.ok (ty, payload.length) := by
  intro obj hok
  rcases hfile with hf | hf
  · obtain ⟨hr, hh⟩ := legacy_read_eval fs objectsDir oid ty payload hty hlen hf
    rw [hr] at hok
    injection hok with h
    exact ⟨h.symm, hh⟩
  · by_cases hs : payload.length < 16
    · obtain ⟨hr, hh⟩ := compact_small_read_eval fs objectsDir oid ty payload hty hs hf
      rw [hr] at hok
      injection hok with h
      exact ⟨h.symm, hh⟩
    · exact absurd hok
        (compact_large_not_ok fs objectsDir oid ty payload hty (by omega) hf obj)

/-- A store holding the blob `"hi"` under `oidB` in the legacy wire
variant. -/
def fsC7 : LooseFS where
  files := [(oidPath ['o'] oidB, encodeLegacy ObjectBlob [104, 105])]
  dirs := []

/-- Witness for C7: reading the stored legacy blob succeeds and
`ReadHeader` returns the same type with the payload length. -/
theorem C7_read_header_agreement_witness :
    looseReadHeader fsC7 ['o'] oidB = ROut.ok (ObjectBlob, 2) := by
  have h := C7_read_header_agreement fsC7 ['o'] oidB ObjectBlob [104, 105]
    (by decide) (by norm_num) (Or.inl rfl)
  have hread : looseRead fsC7 ['o'] oidB = ROut.ok ⟨ObjectBlob, [104, 105]⟩ := rfl
  simpa using (h ⟨ObjectBlob, [104, 105]⟩ hread).2

end Git4go
